import Mathlib

/-!
Verification development for the chunk-identity and store-synchronization
core of `populate_database.py`.

The embedding models:
* `calculate_sha1` — streaming SHA-1 of a file; the filesystem is a map
  `String → Option (List Nat)` (`none` models `FileNotFoundError`), and the
  digest itself is an abstract parameter `digest : List Nat → String`
  standing for the hex digest of the file's bytes (the incremental 64KB
  update loop in the source folds to a single digest of the whole content
  by the streaming property of the hash API; no claim depends on the
  concrete hash values).
* `calculate_chunk_ids` — the ordered pass assigning
  `source:page:sha1:index` identifiers with the `(last_page_id,
  current_chunk_index)` running state.
* `add_to_chroma` — the diff-and-apply synchronization against a store,
  instrumented to return both the final store state and the ordered list
  of store operations performed (`delete`/`add_documents`/`persist`).

Python conventions captured: `metadata.get("page")` is `None` for unit-less
sources and an f-string renders `None` as the string `"None"`; likewise a
`None` SHA-1 result is rendered `"None"`. `metadata.get("source")` is
modelled as always present: every loader sets it, and the source would
raise `TypeError` (outside the spec's error taxonomy) if it were absent.
-/

/-- A chunk as produced by the splitter: its text, its provenance metadata
(`source` path and optional `page` number), and the `id` metadata slot that
`calculate_chunk_ids` fills in (`none` until assigned). -/
structure Chunk where
  text : String
  source : String
  page : Option Int
  id : Option String
deriving DecidableEq, Repr

/-- Python f-string rendering of an optional integer: `None` prints as
`"None"`, an int as its decimal form. -/
def pyStrOfOptInt : Option Int → String
  | none => "None"
  | some i => toString i

/-- Python f-string rendering of an optional string: `None` prints as
`"None"`, a string as itself. -/
def pyStrOfOptStr : Option String → String
  | none => "None"
  | some s => s

/-- `calculate_sha1(filepath)`: reads the file and folds its bytes through
the SHA-1 accumulator, returning the hex digest; on `FileNotFoundError`
(the path does not resolve to a file, `fs filepath = none`) it prints
"File not found" and returns `None`. -/
def calculate_sha1 (fs : String → Option (List Nat)) (digest : List Nat → String)
    (filepath : String) : Option String :=
  match fs filepath with
  | none => none
  | some bytes => some (digest bytes)

/-- The `current_page_id` formed for a chunk inside `calculate_chunk_ids`:
`f"{source}:{page}:{sha1_hash}"`. -/
def pageIdOf (fs : String → Option (List Nat)) (digest : List Nat → String)
    (c : Chunk) : String :=
  c.source ++ ":" ++ pyStrOfOptInt c.page ++ ":" ++
    pyStrOfOptStr (calculate_sha1 fs digest c.source)

/-- The loop of `calculate_chunk_ids`, with the running state
(`last_page_id`, `current_chunk_index`) made explicit. -/
def calculate_chunk_ids_go (fs : String → Option (List Nat)) (digest : List Nat → String) :
    Option String → Nat → List Chunk → List Chunk
  | _, _, [] => []
  | last_page_id, idx, chunk :: rest =>
    let current_page_id := pageIdOf fs digest chunk
    let current_chunk_index := if some current_page_id = last_page_id then idx + 1 else 0
    let chunk_id := current_page_id ++ ":" ++ Nat.repr current_chunk_index
    { chunk with id := some chunk_id } ::
      calculate_chunk_ids_go fs digest (some current_page_id) current_chunk_index rest

/-- `calculate_chunk_ids(chunks)`: one ordered pass over the batch,
starting from `last_page_id = None` and `current_chunk_index = 0`. -/
def calculate_chunk_ids (fs : String → Option (List Nat)) (digest : List Nat → String)
    (chunks : List Chunk) : List Chunk :=
  calculate_chunk_ids_go fs digest none 0 chunks

/-- `chunk.metadata["id"]` as read back by `add_to_chroma`; the slot is
always set there because `calculate_chunk_ids` ran first (see
`calculate_chunk_ids_id_isSome`), so the `""` default is unreachable. -/
def chunkId (c : Chunk) : String :=
  c.id.getD ""

example :
    (calculate_chunk_ids (fun _ => some []) (fun _ => "h")
      [{ text := "t0", source := "a", page := none, id := none },
       { text := "t1", source := "a", page := none, id := none }]).map chunkId
    = ["a:None:h:0", "a:None:h:1"] := by decide

example :
    (calculate_chunk_ids (fun _ => some []) (fun _ => "h")
      [{ text := "t0", source := "a", page := none, id := none },
       { text := "t1", source := "b", page := none, id := none },
       { text := "t2", source := "a", page := none, id := none }]).map chunkId
    = ["a:None:h:0", "b:None:h:0", "a:None:h:0"] := by decide

/-- The persisted Chroma store, reduced to what the core observes: the
stored items keyed by identifier (in insertion order). -/
structure DB where
  items : List (String × Chunk)
deriving DecidableEq

/-- `db.get(include=[])["ids"]`: the identifiers of all stored items. -/
def DB.listIds (db : DB) : List String :=
  db.items.map Prod.fst

/-- `db.delete(ids=...)`: removes every stored item whose identifier is in
the given set. -/
def DB.deleteIds (db : DB) (ids : Finset String) : DB :=
  ⟨db.items.filter fun p => decide (p.1 ∉ ids)⟩

/-- `db.add_documents(chunks, ids=...)`: appends the given chunks under the
given identifiers. -/
def DB.addDocuments (db : DB) (ids : List String) (chunks : List Chunk) : DB :=
  ⟨db.items ++ ids.zip chunks⟩

/-- `db.persist()`: durability barrier; leaves the observable state alone. -/
def DB.persist (db : DB) : DB :=
  db

/-- The stored item under an identifier, if any. -/
def DB.lookup (db : DB) (x : String) : Option Chunk :=
  (db.items.find? fun p => decide (p.1 = x)).map Prod.snd

/-- One store call made by `add_to_chroma`, recorded in order. -/
inductive StoreOp where
  | deleteIds (ids : Finset String)
  | addDocuments (ids : List String) (chunks : List Chunk)
  | persist
deriving DecidableEq

/-- `new_chunks`: the chunks of the current batch whose identifier is not
among the persisted identifiers (the filtering loop of `add_to_chroma`). -/
def chroma_new_chunks (existing_ids : Finset String) (chunks_with_ids : List Chunk) :
    List Chunk :=
  chunks_with_ids.filter fun c => decide (chunkId c ∉ existing_ids)

/-- `current_ids`: the set of identifiers of the current batch. -/
def chroma_current_ids (chunks_with_ids : List Chunk) : Finset String :=
  (chunks_with_ids.map chunkId).toFinset

/-- `obsolete_ids = existing_ids - current_ids`: persisted identifiers no
longer present in the current batch. -/
def chroma_obsolete_ids (existing_ids : Finset String) (chunks_with_ids : List Chunk) :
    Finset String :=
  existing_ids \ chroma_current_ids chunks_with_ids

/-- `add_to_chroma(chunks)`: assigns identifiers, diffs them against the
persisted identifiers, then (a) deletes and persists the obsolete
identifiers when there are any, and (b) adds and persists the new chunks
when there are any. Returns the final store state together with the
ordered trace of store calls. -/
def add_to_chroma (fs : String → Option (List Nat)) (digest : List Nat → String)
    (db : DB) (chunks : List Chunk) : DB × List StoreOp :=
  let chunks_with_ids := calculate_chunk_ids fs digest chunks
  let existing_ids : Finset String := db.listIds.toFinset
  let new_chunks := chroma_new_chunks existing_ids chunks_with_ids
  let obsolete_ids := chroma_obsolete_ids existing_ids chunks_with_ids
  let step1 : DB × List StoreOp :=
    if obsolete_ids ≠ ∅ then
      ((db.deleteIds obsolete_ids).persist,
        [StoreOp.deleteIds obsolete_ids, StoreOp.persist])
    else (db, [])
  let step2 : DB × List StoreOp :=
    if new_chunks.length ≠ 0 then
      let new_chunk_ids := new_chunks.map chunkId
      ((step1.1.addDocuments new_chunk_ids new_chunks).persist,
        [StoreOp.addDocuments new_chunk_ids new_chunks, StoreOp.persist])
    else (step1.1, [])
  (step2.1, step1.2 ++ step2.2)

/-- Unfolding equation for `Nat.toDigitsCore` at zero fuel. -/
theorem toDigitsCore_zero (n : Nat) (ds : List Char) :
    Nat.toDigitsCore 10 0 n ds = ds := rfl

/-- Unfolding equation for `Nat.toDigitsCore` at successor fuel. -/
theorem toDigitsCore_succ (fuel n : Nat) (ds : List Char) :
    Nat.toDigitsCore 10 (fuel + 1) n ds =
      if n / 10 = 0 then Nat.digitChar (n % 10) :: ds
      else Nat.toDigitsCore 10 fuel (n / 10) (Nat.digitChar (n % 10) :: ds) := rfl

/-- `Nat.toDigitsCore` only prepends to its accumulator. -/
theorem toDigitsCore_acc (fuel : Nat) : ∀ (n : Nat) (ds : List Char),
    Nat.toDigitsCore 10 fuel n ds = Nat.toDigitsCore 10 fuel n [] ++ ds := by
  induction fuel with
  | zero => intro n ds; simp [toDigitsCore_zero]
  | succ fuel ih =>
    intro n ds
    rw [toDigitsCore_succ, toDigitsCore_succ]
    by_cases h : n / 10 = 0
    · simp [h]
    · simp only [h, if_neg, if_false]
      rw [ih (n / 10) [Nat.digitChar (n % 10)], ih (n / 10) (Nat.digitChar (n % 10) :: ds)]
      simp

/-- The characters of decimal digits: never a colon, and their code point
recovers the digit. -/
theorem digitChar_facts : ∀ m : Nat, m < 10 →
    Nat.digitChar m ≠ ':' ∧ (Nat.digitChar m).toNat = m + 48 := by decide

/-- A colon never occurs among the digits `Nat.toDigitsCore` produces. -/
theorem colon_not_mem_toDigitsCore (fuel : Nat) : ∀ n : Nat,
    ':' ∉ Nat.toDigitsCore 10 fuel n [] := by
  induction fuel with
  | zero => intro n; simp [toDigitsCore_zero]
  | succ fuel ih =>
    intro n
    rw [toDigitsCore_succ]
    have hd := (digitChar_facts (n % 10) (Nat.mod_lt n (by norm_num))).1
    by_cases h : n / 10 = 0
    · simp [h, Ne.symm hd]
    · simp only [h, if_neg, if_false]
      rw [toDigitsCore_acc]
      simp [Ne.symm hd, ih (n / 10)]

/-- A colon never occurs in the decimal rendering of a natural number. -/
theorem colon_not_mem_repr (n : Nat) : ':' ∉ (Nat.repr n).data := by
  show ':' ∉ ((Nat.toDigits 10 n).asString).data
  show ':' ∉ Nat.toDigitsCore 10 (n + 1) n []
  exact colon_not_mem_toDigitsCore (n + 1) n

/-- Decimal re-reading of a digit string, used to invert `Nat.repr`. -/
def digitsVal (l : List Char) : Nat :=
  l.foldl (fun a c => 10 * a + (c.toNat - 48)) 0

/-- Reading back the digits produced by `Nat.toDigitsCore` recovers the
number (relative to an arbitrary initial accumulator). -/
theorem digitsVal_toDigitsCore (fuel : Nat) : ∀ n a : Nat, n < 10 ^ fuel →
    List.foldl (fun a c => 10 * a + (c.toNat - 48)) a (Nat.toDigitsCore 10 fuel n []) =
      a * 10 ^ (Nat.toDigitsCore 10 fuel n []).length + n := by
  induction fuel with
  | zero =>
    intro n a h
    have : n = 0 := by omega
    simp [toDigitsCore_zero, this]
  | succ fuel ih =>
    intro n a h
    have hd := (digitChar_facts (n % 10) (Nat.mod_lt n (by norm_num))).2
    rw [toDigitsCore_succ]
    by_cases h0 : n / 10 = 0
    · have hn : n < 10 := by omega
      simp only [h0, if_pos, if_true, List.foldl_cons, List.foldl_nil, List.length_cons,
        List.length_nil]
      rw [hd]
      have : n % 10 = n := Nat.mod_eq_of_lt hn
      simp [pow_one]
      omega
    · simp only [h0, if_neg, if_false]
      rw [toDigitsCore_acc]
      have hlt : n / 10 < 10 ^ fuel := by
        rw [pow_succ] at h
        exact (Nat.div_lt_iff_lt_mul (by norm_num)).mpr h
      rw [List.foldl_append, ih (n / 10) a hlt]
      simp only [List.foldl_cons, List.foldl_nil, List.length_append, List.length_cons,
        List.length_nil]
      rw [hd]
      have hmod : 10 * (n / 10) + n % 10 = n := Nat.div_add_mod n 10
      rw [pow_succ]
      ring_nf
      omega

/-- Reading back `Nat.repr` recovers the number. -/
theorem digitsVal_repr (n : Nat) : digitsVal (Nat.repr n).data = n := by
  have hlt : n < 10 ^ (n + 1) := by
    calc n < 2 ^ n := Nat.lt_two_pow n
    _ ≤ 10 ^ n := Nat.pow_le_pow_left (by norm_num) n
    _ ≤ 10 ^ (n + 1) := Nat.pow_le_pow_right (by norm_num) (Nat.le_succ n)
  have := digitsVal_toDigitsCore (n + 1) n 0 hlt
  show digitsVal (Nat.toDigitsCore 10 (n + 1) n []) = n
  unfold digitsVal
  rw [this]
  simp

/-- Decimal rendering is injective. -/
theorem repr_injective : Function.Injective Nat.repr := by
  intro m n h
  have := congrArg (fun s => digitsVal (String.data s)) h
  simpa [digitsVal_repr] using this

/-- Splitting at the last colon is unambiguous: if the part after the
colon is colon-free on both sides, both parts agree. -/
theorem append_colon_inj : ∀ (a b s t : List Char), ':' ∉ s → ':' ∉ t →
    a ++ ':' :: s = b ++ ':' :: t → a = b ∧ s = t := by
  intro a
  induction a with
  | nil =>
    intro b s t hs ht h
    cases b with
    | nil => simpa using h
    | cons c b' =>
      exfalso
      simp only [List.nil_append, List.cons_append, List.cons.injEq] at h
      exact hs (h.2 ▸ (by simp : ':' ∈ b' ++ ':' :: t))
  | cons c a' ih =>
    intro b s t hs ht h
    cases b with
    | nil =>
      exfalso
      simp only [List.nil_append, List.cons_append, List.cons.injEq] at h
      exact ht (h.2.symm ▸ (by simp : ':' ∈ a' ++ ':' :: s))
    | cons c' b' =>
      simp only [List.cons_append, List.cons.injEq] at h
      obtain ⟨rfl, h2⟩ := h
      obtain ⟨rfl, rfl⟩ := ih b' s t hs ht h2
      exact ⟨rfl, rfl⟩

/-- The `page_key:index` identifier string, as a function of the pair. -/
def encodeId (p : String × Nat) : String :=
  p.1 ++ ":" ++ Nat.repr p.2

/-- Two identifiers agree exactly when their page keys and counters agree:
the counter is the colon-free decimal segment after the last colon. -/
theorem encodeId_injective : Function.Injective encodeId := by
  intro p q h
  have hdata : p.1.data ++ ':' :: (Nat.repr p.2).data
      = q.1.data ++ ':' :: (Nat.repr q.2).data := by
    have := congrArg String.data h
    simpa [encodeId, List.append_assoc] using this
  obtain ⟨h1, h2⟩ :=
    append_colon_inj p.1.data q.1.data (Nat.repr p.2).data (Nat.repr q.2).data
      (colon_not_mem_repr p.2) (colon_not_mem_repr q.2) hdata
  have hfst : p.1 = q.1 := String.ext h1
  have hsnd : p.2 = q.2 := repr_injective (String.ext h2)
  exact Prod.ext hfst hsnd

/-- The running-counter pass of `calculate_chunk_ids`, reduced to the page
keys: from the running state it produces each chunk's
`(page_key, chunk_index)` pair. -/
def runIdx : Option String → Nat → List String → List (String × Nat)
  | _, _, [] => []
  | last, i, k :: ks =>
    let j := if some k = last then i + 1 else 0
    (k, j) :: runIdx (some k) j ks

/-- Equal elements of the list only occur contiguously: whenever the head
occurs again in the tail, the tail starts with it, recursively. -/
def grouped : List String → Prop
  | [] => True
  | k :: ks => (k ∈ ks → ks.head? = some k) ∧ grouped ks

instance instDecidableGrouped : (l : List String) → Decidable (grouped l)
  | [] => .isTrue trivial
  | k :: ks =>
    haveI := instDecidableGrouped ks
    decidable_of_iff ((k ∈ ks → ks.head? = some k) ∧ grouped ks) Iff.rfl

/-- Every page key output by `runIdx` comes from the input list. -/
theorem runIdx_fst_mem : ∀ (ks : List String) (last : Option String) (i : Nat)
    (p : String × Nat), p ∈ runIdx last i ks → p.1 ∈ ks := by
  intro ks
  induction ks with
  | nil => intro last i p h; simp [runIdx] at h
  | cons k ks ih =>
    intro last i p h
    simp only [runIdx, List.mem_cons] at h
    rcases h with h | h
    · subst h; simp
    · exact List.mem_cons_of_mem _ (ih (some k) _ p h)

/-- On a grouped key list the counter pass never repeats a pair; moreover
every pair continuing the incoming key carries a counter above the incoming
one. -/
theorem runIdx_nodup : ∀ (ks : List String) (last : Option String) (i : Nat),
    grouped ks → (∀ k, last = some k → k ∈ ks → ks.head? = some k) →
    (runIdx last i ks).Nodup ∧
      ∀ k j, last = some k → (k, j) ∈ runIdx last i ks → i < j := by
  intro ks
  induction ks with
  | nil => intro last i _ _; simp [runIdx]
  | cons k0 ks ih =>
    intro last i hg hlast
    obtain ⟨hg0, hgks⟩ := hg
    have ihspec := ih (some k0) (if some k0 = last then i + 1 else 0) hgks
      (by intro k hk hmem; cases hk; exact hg0 hmem)
    obtain ⟨ihnd, ihgt⟩ := ihspec
    constructor
    · simp only [runIdx, List.nodup_cons]
      refine ⟨fun hmem => ?_, ihnd⟩
      exact absurd (ihgt k0 _ rfl hmem) (lt_irrefl _)
    · intro k j hk hmem
      simp only [runIdx, List.mem_cons] at hmem
      rcases hmem with hmem | hmem
      · injection hmem with h1 h2
        subst h1
        subst h2
        rw [if_pos hk.symm]
        omega
      · by_cases hkeq : k = k0
        · subst hkeq
          have hgt := ihgt k j rfl hmem
          rw [if_pos hk.symm] at hgt
          omega
        · exfalso
          have hksmem : k ∈ k0 :: ks :=
            List.mem_cons_of_mem _ (runIdx_fst_mem ks (some k0) _ (k, j) hmem)
          have := hlast k hk hksmem
          simp at this
          exact hkeq this.symm

/-- Every input key receives some counter: each key of the list appears as
the page key of some output pair of the counter pass. -/
theorem runIdx_mem_of_key_mem : ∀ (ks : List String) (last : Option String) (i : Nat)
    (k : String), k ∈ ks → ∃ j, (k, j) ∈ runIdx last i ks := by
  intro ks
  induction ks with
  | nil => intro last i k h; simp at h
  | cons k0 ks ih =>
    intro last i k h
    rcases List.mem_cons.mp h with h | h
    · subst h
      refine ⟨if some k = last then i + 1 else 0, ?_⟩
      simp [runIdx]
    · obtain ⟨j, hj⟩ := ih (some k0) (if some k0 = last then i + 1 else 0) k h
      refine ⟨j, ?_⟩
      simp only [runIdx]
      exact List.mem_cons_of_mem _ hj

/-- The identifiers assigned by the loop are exactly the encoded
`(page_key, index)` pairs of the counter pass over the page keys. -/
theorem go_map_chunkId (fs : String → Option (List Nat)) (digest : List Nat → String) :
    ∀ (cs : List Chunk) (last : Option String) (i : Nat),
    (calculate_chunk_ids_go fs digest last i cs).map chunkId =
      (runIdx last i (cs.map (pageIdOf fs digest))).map encodeId := by
  intro cs
  induction cs with
  | nil => intro last i; simp [calculate_chunk_ids_go, runIdx]
  | cons c cs ih =>
    intro last i
    simp only [calculate_chunk_ids_go, runIdx, List.map_cons, chunkId, encodeId,
      Option.getD_some]
    rw [ih]

/-- The loop assigns an identifier to every chunk of the batch. -/
theorem go_id_isSome (fs : String → Option (List Nat)) (digest : List Nat → String) :
    ∀ (cs : List Chunk) (last : Option String) (i : Nat) (c : Chunk),
    c ∈ calculate_chunk_ids_go fs digest last i cs → c.id.isSome := by
  intro cs
  induction cs with
  | nil => intro last i c h; simp [calculate_chunk_ids_go] at h
  | cons c0 cs ih =>
    intro last i c h
    simp only [calculate_chunk_ids_go, List.mem_cons] at h
    rcases h with h | h
    · subst h; rfl
    · exact ih _ _ c h

/-- The loop preserves the length of the batch. -/
theorem go_length (fs : String → Option (List Nat)) (digest : List Nat → String) :
    ∀ (cs : List Chunk) (last : Option String) (i : Nat),
    (calculate_chunk_ids_go fs digest last i cs).length = cs.length := by
  intro cs
  induction cs with
  | nil => intro last i; rfl
  | cons c0 cs ih => intro last i; simp [calculate_chunk_ids_go, ih]

/-- `calculate_chunk_ids` sets the `id` metadata of every chunk. -/
theorem calculate_chunk_ids_id_isSome (fs : String → Option (List Nat))
    (digest : List Nat → String) (cs : List Chunk) (c : Chunk)
    (h : c ∈ calculate_chunk_ids fs digest cs) : c.id.isSome :=
  go_id_isSome fs digest cs none 0 c h

/-- Fixed sample inputs used by the concrete counterexamples and
witnesses: a trivial filesystem on which every path is readable, a
constant digest, and markdown chunks without page metadata. -/
def fsAll : String → Option (List Nat) := fun _ => some []

/-- A filesystem on which no path resolves to a readable file. -/
def fsNone : String → Option (List Nat) := fun _ => none

/-- A constant digest function for concrete evaluations. -/
def dgH : List Nat → String := fun _ => "h"

/-- A chunk from source file `a` with no page metadata. -/
def chunkA : Chunk := { text := "t0", source := "a", page := none, id := none }

/-- A chunk from source file `b` with no page metadata. -/
def chunkB : Chunk := { text := "t1", source := "b", page := none, id := none }

/-- A second chunk from source file `a` with no page metadata. -/
def chunkA2 : Chunk := { text := "t2", source := "a", page := none, id := none }

/-- C1, counterexample: in the batch `[a-chunk, b-chunk, a-chunk]` (chunks
sharing the `(source_path, unit_index)` pair `("a", none)` but separated by
a chunk from `b`), the first and third chunk both receive the identifier
`"a:None:h:0"`: identifiers are not unique within the batch, refuting the
claim's "regardless of whether chunks sharing a pair are contiguous". -/
theorem chunk_id_duplicate_cex :
    (calculate_chunk_ids fsAll dgH [chunkA, chunkB, chunkA2]).map chunkId
      = ["a:None:h:0", "b:None:h:0", "a:None:h:0"]
    ∧ ¬ ((calculate_chunk_ids fsAll dgH [chunkA, chunkB, chunkA2]).map chunkId).Nodup := by
  constructor
  · decide
  · decide

/-- C1 (amended): in every chunk batch in which chunks sharing a page key
(`source:page:fingerprint`) occur contiguously, no two chunks receive the
same identifier; in particular two chunks with the same
`(source_path, unit_index)` pair and different ordinal position receive
different identifiers. -/
theorem chunk_ids_nodup_of_grouped (fs : String → Option (List Nat))
    (digest : List Nat → String) (cs : List Chunk)
    (h : grouped (cs.map (pageIdOf fs digest))) :
    ((calculate_chunk_ids fs digest cs).map chunkId).Nodup := by
  rw [calculate_chunk_ids, go_map_chunkId]
  have hnd := (runIdx_nodup (cs.map (pageIdOf fs digest)) none 0 h
    (by intro k hk hmem; exact Option.noConfusion hk)).1
  exact hnd.map encodeId_injective

/-- Witness for `chunk_ids_nodup_of_grouped`: the contiguous batch
`[a-chunk, a-chunk, b-chunk]` satisfies the grouping hypothesis and indeed
receives pairwise distinct identifiers. -/
theorem chunk_ids_nodup_of_grouped_witness :
    grouped ([chunkA, chunkA2, chunkB].map (pageIdOf fsAll dgH))
    ∧ ((calculate_chunk_ids fsAll dgH [chunkA, chunkA2, chunkB]).map chunkId).Nodup :=
  ⟨by decide, chunk_ids_nodup_of_grouped fsAll dgH [chunkA, chunkA2, chunkB] (by decide)⟩

/-- Modelled from the spec: the Chunk Identity Assigner of §4.2, written
from the spec's own words as the reference side of the refinement theorem
for C3. It processes the sequence in order with running state
`(last_page_key, running_index)`; for each chunk it forms
`page_key = source_path ++ ":" ++ unit_index ++ ":" ++ fingerprint`,
increments `running_index` when `page_key` equals the previous page key and
resets it to `0` otherwise, and sets the identifier to
`page_key ++ ":" ++ running_index`. The fingerprint function and the
rendering of the optional unit index are parameters, since the quoted
sentences fix neither. -/
def assign_ids_spec (fingerprint : String → String) (unitStr : Option Int → String) :
    Option String → Nat → List Chunk → List Chunk
  | _, _, [] => []
  | last_page_key, running_index, chunk :: rest =>
    let page_key := chunk.source ++ ":" ++ unitStr chunk.page ++ ":" ++ fingerprint chunk.source
    let idx := if some page_key = last_page_key then running_index + 1 else 0
    { chunk with id := some (page_key ++ ":" ++ Nat.repr idx) } ::
      assign_ids_spec fingerprint unitStr (some page_key) idx rest

/-- C3: `calculate_chunk_ids` is exactly the spec's ordered pass with
running state `(last_page_key, running_index)`: page key
`source:unit_index:fingerprint`, counter incremented on equal consecutive
page keys and reset to zero otherwise, identifier `page_key:counter`. -/
theorem calculate_chunk_ids_refines_spec (fs : String → Option (List Nat))
    (digest : List Nat → String) (cs : List Chunk) :
    calculate_chunk_ids fs digest cs =
      assign_ids_spec (fun p => pyStrOfOptStr (calculate_sha1 fs digest p))
        pyStrOfOptInt none 0 cs := by
  rw [calculate_chunk_ids]
  suffices h : ∀ (cs : List Chunk) (last : Option String) (i : Nat),
      calculate_chunk_ids_go fs digest last i cs =
        assign_ids_spec (fun p => pyStrOfOptStr (calculate_sha1 fs digest p))
          pyStrOfOptInt last i cs from h cs none 0
  intro cs
  induction cs with
  | nil => intro last i; rfl
  | cons c cs ih =>
    intro last i
    simp only [calculate_chunk_ids_go, assign_ids_spec, pageIdOf]
    rw [ih]

/-- C2, counterexample: for a chunk whose provenance path `"a.md"` resolves
to no readable file, fingerprinting returns the `None` sentinel rather
than failing, and identity assignment does not abort: the chunk is
assigned the identifier `"a.md:1:None:0"`. -/
theorem missing_file_still_assigns_id_cex :
    calculate_sha1 fsNone dgH "a.md" = none
    ∧ (calculate_chunk_ids fsNone dgH
        [{ text := "t", source := "a.md", page := some 1, id := none }]).map Chunk.id
      = [some "a.md:1:None:0"] := by
  constructor
  · rfl
  · decide

/-- C2 (amended): if a chunk's provenance path does not resolve to a
readable file, `calculate_sha1` returns the sentinel `None` instead of
failing (and that is the only way it returns `None`); identity assignment
is not aborted: every chunk of the batch still receives an identifier, and
the batch keeps its length. -/
theorem sha1_sentinel_no_abort (fs : String → Option (List Nat))
    (digest : List Nat → String) (p : String) (cs : List Chunk) :
    (calculate_sha1 fs digest p = none ↔ fs p = none)
    ∧ ((calculate_chunk_ids fs digest cs).all fun c => c.id.isSome) = true
    ∧ (calculate_chunk_ids fs digest cs).length = cs.length := by
  refine ⟨?_, ?_, go_length fs digest cs none 0⟩
  · unfold calculate_sha1
    cases fs p <;> simp
  · rw [List.all_eq_true]
    intro c hc
    exact calculate_chunk_ids_id_isSome fs digest cs c hc

/-- C10: when a chunk's source path does not resolve to an existing file,
fingerprinting returns the sentinel `none` instead of raising, identity
assignment still completes for the whole batch (same length, every chunk
given an identifier), and that chunk's identifier has the literal string
`"None"` in the fingerprint field: `source:page:None:index`. -/
theorem missing_file_none_id (fs : String → Option (List Nat))
    (digest : List Nat → String) (cs : List Chunk) (c : Chunk)
    (hc : c ∈ cs) (hfs : fs c.source = none) :
    calculate_sha1 fs digest c.source = none
    ∧ (calculate_chunk_ids fs digest cs).length = cs.length
    ∧ ((calculate_chunk_ids fs digest cs).all fun c => c.id.isSome) = true
    ∧ ∃ k, (c.source ++ ":" ++ pyStrOfOptInt c.page ++ ":" ++ "None" ++ ":" ++ Nat.repr k)
        ∈ (calculate_chunk_ids fs digest cs).map chunkId := by
  have hsha : calculate_sha1 fs digest c.source = none := by
    unfold calculate_sha1; rw [hfs]
  refine ⟨hsha, go_length fs digest cs none 0, ?_, ?_⟩
  · rw [List.all_eq_true]
    intro c' hc'
    exact calculate_chunk_ids_id_isSome fs digest cs c' hc'
  · have hkey : pageIdOf fs digest c
        = c.source ++ ":" ++ pyStrOfOptInt c.page ++ ":" ++ "None" := by
      rw [pageIdOf, hsha]; rfl
    have hmem : pageIdOf fs digest c ∈ cs.map (pageIdOf fs digest) :=
      List.mem_map_of_mem _ hc
    rw [calculate_chunk_ids, go_map_chunkId]
    obtain ⟨k, hk⟩ := runIdx_mem_of_key_mem (cs.map (pageIdOf fs digest)) none 0 _ hmem
    refine ⟨k, ?_⟩
    rw [← hkey]
    exact List.mem_map_of_mem encodeId hk

/-- C8, counterexample: two consecutive chunks from `report.md` with no
page metadata and identical fingerprint `h` receive the identifiers
`"report.md:None:h:0"` and `"report.md:None:h:1"` — the unit-index
sentinel is Python's `"None"`, not the lowercase `"none"` of the claim, so
the claimed identifiers `"report.md:none:h:0"` / `"report.md:none:h:1"`
are not produced. -/
theorem sentinel_lowercase_none_cex :
    (calculate_chunk_ids fsAll dgH
      [{ text := "t0", source := "report.md", page := none, id := none },
       { text := "t1", source := "report.md", page := none, id := none }]).map chunkId
      = ["report.md:None:h:0", "report.md:None:h:1"]
    ∧ (calculate_chunk_ids fsAll dgH
      [{ text := "t0", source := "report.md", page := none, id := none },
       { text := "t1", source := "report.md", page := none, id := none }]).map chunkId
      ≠ ["report.md:none:h:0", "report.md:none:h:1"] := by
  constructor
  · decide
  · decide

/-- C8 (amended): for a source with no page metadata the sentinel string
for the unit index is `"None"` (Python's rendering of `None`): two
consecutive chunks from the same readable source with identical
fingerprint `<hash>` receive exactly the identifiers
`source:None:<hash>:0` and `source:None:<hash>:1`. -/
theorem sentinel_ids_consecutive (fs : String → Option (List Nat))
    (digest : List Nat → String) (s : String) (bytes : List Nat) (t0 t1 : String)
    (hfs : fs s = some bytes) :
    (calculate_chunk_ids fs digest
      [{ text := t0, source := s, page := none, id := none },
       { text := t1, source := s, page := none, id := none }]).map chunkId
    = [s ++ ":" ++ "None" ++ ":" ++ digest bytes ++ ":" ++ "0",
       s ++ ":" ++ "None" ++ ":" ++ digest bytes ++ ":" ++ "1"] := by
  have h0 : Nat.repr 0 = "0" := rfl
  have h1 : Nat.repr 1 = "1" := rfl
  simp [calculate_chunk_ids, calculate_chunk_ids_go, pageIdOf, calculate_sha1, hfs,
    pyStrOfOptInt, pyStrOfOptStr, chunkId, h0, h1]

/-- Witness for `sentinel_ids_consecutive` at a concrete readable file. -/
theorem sentinel_ids_consecutive_witness :
    fsAll "report.md" = some []
    ∧ (calculate_chunk_ids fsAll dgH
      [{ text := "t0", source := "report.md", page := none, id := none },
       { text := "t1", source := "report.md", page := none, id := none }]).map chunkId
      = ["report.md" ++ ":" ++ "None" ++ ":" ++ dgH [] ++ ":" ++ "0",
         "report.md" ++ ":" ++ "None" ++ ":" ++ dgH [] ++ ":" ++ "1"] :=
  ⟨rfl, sentinel_ids_consecutive fsAll dgH "report.md" [] "t0" "t1" rfl⟩

/-- A chunk whose source path `a.md` will be unreadable in the witness. -/
def chunkM : Chunk := { text := "t", source := "a.md", page := some 1, id := none }

/-- Witness for `missing_file_none_id`: on a filesystem where no path is
readable, the single-chunk batch still gets an identifier with `"None"` in
the fingerprint field. -/
theorem missing_file_none_id_witness :
    chunkM ∈ [chunkM]
    ∧ fsNone chunkM.source = none
    ∧ (calculate_sha1 fsNone dgH chunkM.source = none
      ∧ (calculate_chunk_ids fsNone dgH [chunkM]).length = [chunkM].length
      ∧ ((calculate_chunk_ids fsNone dgH [chunkM]).all fun c => c.id.isSome) = true
      ∧ ∃ k, (chunkM.source ++ ":" ++ pyStrOfOptInt chunkM.page ++ ":" ++ "None" ++ ":"
            ++ Nat.repr k)
          ∈ (calculate_chunk_ids fsNone dgH [chunkM]).map chunkId) :=
  ⟨List.mem_singleton.mpr rfl, rfl,
    missing_file_none_id fsNone dgH [chunkM] chunkM (List.mem_singleton.mpr rfl) rfl⟩

/-- The identifiers of the new chunks form exactly the set difference
`current_ids \ existing_ids`. -/
theorem new_chunk_ids_toFinset (existing_ids : Finset String) (wi : List Chunk) :
    ((chroma_new_chunks existing_ids wi).map chunkId).toFinset
      = chroma_current_ids wi \ existing_ids := by
  apply Finset.ext
  intro x
  simp only [chroma_new_chunks, chroma_current_ids, List.mem_toFinset, List.mem_map,
    List.mem_filter, Finset.mem_sdiff, decide_eq_true_eq]
  constructor
  · rintro ⟨c, ⟨hc, hx⟩, rfl⟩
    exact ⟨⟨c, hc, rfl⟩, hx⟩
  · rintro ⟨⟨c, hc, rfl⟩, hx⟩
    exact ⟨c, ⟨hc, hx⟩, rfl⟩

/-- An empty obsolete set means every persisted identifier is current. -/
theorem obsolete_empty_iff (existing_ids : Finset String) (wi : List Chunk) :
    chroma_obsolete_ids existing_ids wi = ∅ ↔ existing_ids ⊆ chroma_current_ids wi := by
  rw [chroma_obsolete_ids, Finset.sdiff_eq_empty_iff_subset]

/-- An empty new-chunk list means every current identifier is persisted. -/
theorem new_chunks_nil_iff (existing_ids : Finset String) (wi : List Chunk) :
    chroma_new_chunks existing_ids wi = [] ↔
      chroma_current_ids wi ⊆ existing_ids := by
  simp only [chroma_new_chunks, List.filter_eq_nil_iff, decide_eq_true_eq, not_not]
  constructor
  · intro h x hx
    simp only [chroma_current_ids, List.mem_toFinset, List.mem_map] at hx
    obtain ⟨c, hc, rfl⟩ := hx
    exact h c hc
  · intro h c hc
    exact h (by simp [chroma_current_ids, List.mem_toFinset, List.mem_map]; exact ⟨c, hc, rfl⟩)

/-- C4: synchronization computes the additions as exactly the current
chunks whose identifier is not persisted, and the removals as exactly the
persisted identifiers absent from the current batch (set difference). -/
theorem sync_diff_sets (existing_ids : Finset String) (chunks_with_ids : List Chunk) :
    chroma_new_chunks existing_ids chunks_with_ids
        = chunks_with_ids.filter (fun c => decide (chunkId c ∉ existing_ids))
    ∧ ((chroma_new_chunks existing_ids chunks_with_ids).map chunkId).toFinset
        = chroma_current_ids chunks_with_ids \ existing_ids
    ∧ chroma_obsolete_ids existing_ids chunks_with_ids
        = existing_ids \ chroma_current_ids chunks_with_ids :=
  ⟨rfl, new_chunk_ids_toFinset existing_ids chunks_with_ids, rfl⟩

/-- C9: the identifiers a sync run deletes are disjoint from the current
batch's identifiers and lie inside the persisted set, and the identifiers
it adds are disjoint from the persisted set. -/
theorem sync_delete_add_disjoint (fs : String → Option (List Nat))
    (digest : List Nat → String) (db : DB) (chunks : List Chunk) :
    chroma_obsolete_ids db.listIds.toFinset (calculate_chunk_ids fs digest chunks)
        ∩ chroma_current_ids (calculate_chunk_ids fs digest chunks) = ∅
    ∧ chroma_obsolete_ids db.listIds.toFinset (calculate_chunk_ids fs digest chunks)
        \ db.listIds.toFinset = ∅
    ∧ ((chroma_new_chunks db.listIds.toFinset (calculate_chunk_ids fs digest chunks)).map
          chunkId).toFinset ∩ db.listIds.toFinset = ∅ := by
  refine ⟨?_, ?_, ?_⟩
  · apply Finset.ext; intro x
    simp [chroma_obsolete_ids]
  · apply Finset.ext; intro x
    simp [chroma_obsolete_ids]
  · rw [new_chunk_ids_toFinset]
    apply Finset.ext; intro x
    simp

/-- The trace of store calls a sync run makes, as a function of the
obsolete set and the new-chunk list. -/
theorem add_to_chroma_trace_eq (fs : String → Option (List Nat)) (digest : List Nat → String)
    (db : DB) (chunks : List Chunk) :
    (add_to_chroma fs digest db chunks).2 =
      (if chroma_obsolete_ids db.listIds.toFinset (calculate_chunk_ids fs digest chunks)
          ≠ ∅ then
        [StoreOp.deleteIds
          (chroma_obsolete_ids db.listIds.toFinset (calculate_chunk_ids fs digest chunks)),
         StoreOp.persist]
      else [])
      ++ (if chroma_new_chunks db.listIds.toFinset (calculate_chunk_ids fs digest chunks)
          ≠ [] then
        [StoreOp.addDocuments
          ((chroma_new_chunks db.listIds.toFinset
              (calculate_chunk_ids fs digest chunks)).map chunkId)
          (chroma_new_chunks db.listIds.toFinset (calculate_chunk_ids fs digest chunks)),
         StoreOp.persist]
      else []) := by
  by_cases h1 : chroma_obsolete_ids db.listIds.toFinset
      (calculate_chunk_ids fs digest chunks) = ∅ <;>
    by_cases h2 : chroma_new_chunks db.listIds.toFinset
        (calculate_chunk_ids fs digest chunks) = [] <;>
      simp [add_to_chroma, h1, h2]

/-- C6: the side effects of a sync run happen in a fixed order — when the
obsolete set is non-empty, first a delete of exactly those identifiers
followed by a persist; then, when the new-chunk list is non-empty, an add
of exactly those chunks under their identifiers followed by a persist; an
empty input set skips its step (no operation, no error). -/
theorem sync_op_order (fs : String → Option (List Nat)) (digest : List Nat → String)
    (db : DB) (chunks : List Chunk) :
    (add_to_chroma fs digest db chunks).2 =
      (if chroma_obsolete_ids db.listIds.toFinset (calculate_chunk_ids fs digest chunks)
          ≠ ∅ then
        [StoreOp.deleteIds
          (chroma_obsolete_ids db.listIds.toFinset (calculate_chunk_ids fs digest chunks)),
         StoreOp.persist]
      else [])
      ++ (if chroma_new_chunks db.listIds.toFinset (calculate_chunk_ids fs digest chunks)
          ≠ [] then
        [StoreOp.addDocuments
          ((chroma_new_chunks db.listIds.toFinset
              (calculate_chunk_ids fs digest chunks)).map chunkId)
          (chroma_new_chunks db.listIds.toFinset (calculate_chunk_ids fs digest chunks)),
         StoreOp.persist]
      else []) :=
  add_to_chroma_trace_eq fs digest db chunks

/-- Deleting a set of identifiers removes exactly those identifiers from
the store's key set. -/
theorem deleteIds_listIds (db : DB) (ids : Finset String) :
    (db.deleteIds ids).listIds.toFinset = db.listIds.toFinset \ ids := by
  apply Finset.ext
  intro x
  simp only [DB.deleteIds, DB.listIds, List.mem_toFinset, List.mem_map, List.mem_filter,
    Finset.mem_sdiff, decide_eq_true_eq]
  constructor
  · rintro ⟨p, ⟨hp, hnot⟩, rfl⟩
    exact ⟨⟨p, hp, rfl⟩, hnot⟩
  · rintro ⟨⟨p, hp, rfl⟩, hnot⟩
    exact ⟨p, ⟨hp, hnot⟩, rfl⟩

/-- Adding documents under fresh identifiers adds exactly those
identifiers to the store's key set. -/
theorem addDocuments_listIds (db : DB) (ids : List String) (cs : List Chunk)
    (h : ids.length ≤ cs.length) :
    (db.addDocuments ids cs).listIds.toFinset = db.listIds.toFinset ∪ ids.toFinset := by
  simp [DB.addDocuments, DB.listIds, List.map_fst_zip ids cs h]

/-- After a sync run the persisted identifier set is exactly the current
batch's identifier set. -/
theorem add_to_chroma_listIds (fs : String → Option (List Nat)) (digest : List Nat → String)
    (db : DB) (chunks : List Chunk) :
    ((add_to_chroma fs digest db chunks).1).listIds.toFinset
      = chroma_current_ids (calculate_chunk_ids fs digest chunks) := by
  have hlen : ((chroma_new_chunks db.listIds.toFinset
      (calculate_chunk_ids fs digest chunks)).map chunkId).length
      ≤ (chroma_new_chunks db.listIds.toFinset (calculate_chunk_ids fs digest chunks)).length := by
    simp
  by_cases h1 : chroma_obsolete_ids db.listIds.toFinset
      (calculate_chunk_ids fs digest chunks) = ∅ <;>
    by_cases h2 : chroma_new_chunks db.listIds.toFinset
        (calculate_chunk_ids fs digest chunks) = [] <;>
      simp only [add_to_chroma, h1, h2, ne_eq, not_true_eq_false, not_false_eq_true,
        if_true, if_false, ite_true, ite_false, List.length_eq_zero, DB.persist,
        List.length_nil, addDocuments_listIds _ _ _ hlen, deleteIds_listIds]
  · exact Finset.Subset.antisymm ((obsolete_empty_iff _ _).mp h1)
      ((new_chunks_nil_iff _ _).mp h2)
  · rw [new_chunk_ids_toFinset]
    have hsub := (obsolete_empty_iff _ _).mp h1
    apply Finset.ext
    intro x
    simp only [Finset.mem_union, Finset.mem_sdiff]
    constructor
    · rintro (hx | ⟨hx, _⟩)
      · exact hsub hx
      · exact hx
    · intro hx
      by_cases hE : x ∈ db.listIds.toFinset
      · exact Or.inl hE
      · exact Or.inr ⟨hx, hE⟩
  · rw [chroma_obsolete_ids, Finset.sdiff_sdiff_self_left]
    have hsub := (new_chunks_nil_iff _ _).mp h2
    exact Finset.ext fun x => by
      simp only [Finset.mem_inter]
      exact ⟨fun h => h.2, fun h => ⟨hsub h, h⟩⟩
  · rw [chroma_obsolete_ids, Finset.sdiff_sdiff_self_left, new_chunk_ids_toFinset]
    apply Finset.ext
    intro x
    simp only [Finset.mem_union, Finset.mem_inter, Finset.mem_sdiff]
    constructor
    · rintro (⟨_, hx⟩ | ⟨hx, _⟩) <;> exact hx
    · intro hx
      by_cases hE : x ∈ db.listIds.toFinset
      · exact Or.inl ⟨hE, hx⟩
      · exact Or.inr ⟨hx, hE⟩

/-- C5: synchronization is idempotent — running sync again on the same
unchanged chunk batch, starting from the store a first sync run produced,
performs no store operation at all: zero additions and zero removals. -/
theorem sync_idempotent (fs : String → Option (List Nat)) (digest : List Nat → String)
    (db : DB) (chunks : List Chunk) :
    (add_to_chroma fs digest (add_to_chroma fs digest db chunks).1 chunks).2 = [] := by
  have hids := add_to_chroma_listIds fs digest db chunks
  have hobs : chroma_obsolete_ids
      ((add_to_chroma fs digest db chunks).1).listIds.toFinset
      (calculate_chunk_ids fs digest chunks) = ∅ := by
    rw [hids, chroma_obsolete_ids, Finset.sdiff_self]
  have hnew : chroma_new_chunks
      ((add_to_chroma fs digest db chunks).1).listIds.toFinset
      (calculate_chunk_ids fs digest chunks) = [] := by
    rw [hids, new_chunks_nil_iff]
  rw [add_to_chroma_trace_eq, hobs, hnew]
  simp

/-- `find?` ignores a filter that keeps everything the predicate could
return. -/
theorem find?_filter_eq {α : Type} (l : List α) (keep q : α → Bool)
    (h : ∀ a, q a = true → keep a = true) :
    (l.filter keep).find? q = l.find? q := by
  induction l with
  | nil => rfl
  | cons a l ih =>
    by_cases hq : q a = true
    · rw [List.filter_cons_of_pos (h a hq), List.find?_cons_of_pos _ hq,
        List.find?_cons_of_pos _ hq]
    · by_cases hk : keep a = true
      · rw [List.filter_cons_of_pos hk, List.find?_cons_of_neg _ (by simpa using hq),
          List.find?_cons_of_neg _ (by simpa using hq)]
        exact ih
      · rw [List.filter_cons_of_neg (by simpa using hk),
          List.find?_cons_of_neg _ (by simpa using hq)]
        exact ih

/-- Deleting identifiers other than `x` leaves the item stored under `x`
alone. -/
theorem lookup_deleteIds (db : DB) (ids : Finset String) (x : String) (hx : x ∉ ids) :
    (db.deleteIds ids).lookup x = db.lookup x := by
  unfold DB.lookup DB.deleteIds
  rw [find?_filter_eq]
  intro p hq
  simp only [decide_eq_true_eq] at hq
  simp [hq, hx]

/-- Adding documents under identifiers other than `x` leaves the item
stored under `x` alone. -/
theorem lookup_addDocuments (db : DB) (ids : List String) (cs : List Chunk) (x : String)
    (hx : x ∉ ids) :
    (db.addDocuments ids cs).lookup x = db.lookup x := by
  unfold DB.lookup DB.addDocuments
  rw [List.find?_append]
  have hz : (ids.zip cs).find? (fun p => decide (p.1 = x)) = none := by
    rw [List.find?_eq_none]
    intro p hp
    simp only [decide_eq_true_eq]
    intro hpx
    exact hx (hpx ▸ (List.of_mem_zip hp).1)
  rw [hz, Option.or_none]

/-- C7: an identifier present both in the current batch and in the
persisted set is left untouched by synchronization: it is not among the
deleted identifiers, not among the added identifiers, and the item stored
under it is unchanged. -/
theorem sync_untouched_frame (fs : String → Option (List Nat)) (digest : List Nat → String)
    (db : DB) (chunks : List Chunk) (x : String)
    (hx : x ∈ db.listIds.toFinset)
    (hcur : x ∈ chroma_current_ids (calculate_chunk_ids fs digest chunks)) :
    ((add_to_chroma fs digest db chunks).1).lookup x = db.lookup x
    ∧ x ∉ chroma_obsolete_ids db.listIds.toFinset (calculate_chunk_ids fs digest chunks)
    ∧ x ∉ (chroma_new_chunks db.listIds.toFinset
        (calculate_chunk_ids fs digest chunks)).map chunkId := by
  have hobs : x ∉ chroma_obsolete_ids db.listIds.toFinset
      (calculate_chunk_ids fs digest chunks) := by
    simp [chroma_obsolete_ids, hcur]
  have hnewid : x ∉ (chroma_new_chunks db.listIds.toFinset
      (calculate_chunk_ids fs digest chunks)).map chunkId := by
    intro hmem
    simp only [chroma_new_chunks, List.mem_map, List.mem_filter, decide_eq_true_eq] at hmem
    obtain ⟨c, ⟨_, hcE⟩, rfl⟩ := hmem
    exact hcE hx
  refine ⟨?_, hobs, hnewid⟩
  by_cases h1 : chroma_obsolete_ids db.listIds.toFinset
      (calculate_chunk_ids fs digest chunks) = ∅ <;>
    by_cases h2 : chroma_new_chunks db.listIds.toFinset
        (calculate_chunk_ids fs digest chunks) = [] <;>
      simp only [add_to_chroma, h1, h2, ne_eq, not_true_eq_false, not_false_eq_true,
        if_true, if_false, ite_true, ite_false, List.length_eq_zero, DB.persist,
        List.length_nil]
  · rw [lookup_addDocuments _ _ _ _ hnewid]
  · rw [lookup_deleteIds _ _ _ hobs]
  · rw [lookup_addDocuments _ _ _ _ hnewid, lookup_deleteIds _ _ _ hobs]

/-- Witness for `sync_untouched_frame`: a store already holding the chunk
from source `a` under its identifier, synced against the same single-chunk
batch. -/
theorem sync_untouched_frame_witness :
    "a:None:h:0" ∈ (DB.mk [("a:None:h:0", chunkA)]).listIds.toFinset
    ∧ "a:None:h:0" ∈ chroma_current_ids (calculate_chunk_ids fsAll dgH [chunkA])
    ∧ (((add_to_chroma fsAll dgH (DB.mk [("a:None:h:0", chunkA)]) [chunkA]).1).lookup
          "a:None:h:0"
        = (DB.mk [("a:None:h:0", chunkA)]).lookup "a:None:h:0"
      ∧ "a:None:h:0" ∉ chroma_obsolete_ids
          (DB.mk [("a:None:h:0", chunkA)]).listIds.toFinset
          (calculate_chunk_ids fsAll dgH [chunkA])
      ∧ "a:None:h:0" ∉ (chroma_new_chunks
          (DB.mk [("a:None:h:0", chunkA)]).listIds.toFinset
          (calculate_chunk_ids fsAll dgH [chunkA])).map chunkId) :=
  ⟨by decide, by decide,
    sync_untouched_frame fsAll dgH (DB.mk [("a:None:h:0", chunkA)]) [chunkA]
      "a:None:h:0" (by decide) (by decide)⟩
